import Mathlib

/-!
Verification of the IMP parser (`imp_parser.py`) of the
python-imp-interpreter repository, over a shallow embedding in Lean 4.

The repository's grammar layer (`imp_parser.py`) is embedded definition by
definition.  The parser-combinator library (`combinators.py`), the AST node
classes (`imp_ast.py`) and the token tags of the lexer (`imp_lexer.py`) are
imported by `imp_parser.py` but are not part of the available sources; they
are modelled from the specification (sections 3, 4.1, 4.2 and 6), as noted
on each such definition.

A parser is a pure function from a token list and a start position to
either `some (value, nextPosition)` (the spec's `Success`) or `none` (the
spec's `Failure`).  Recursive grammar rules — tied in the source through
the `Lazy` combinator — are made total with an explicit fuel argument that
bounds the depth of grammar-rule recursion; `defaultFuel` gives every
token of the input more than enough budget, since each grammar level
consumes at least one token before recursing.
-/

namespace Imp

/-- Modelled from the spec: the lexer's token categories (`imp_lexer.py`
is not among the available sources).  The lexer tags every token with one
of `RESERVED` (keywords and operator symbols), `INT` (integer literals)
or `ID` (identifiers). -/
inductive TokenTag where
  | RESERVED
  | INT
  | ID
deriving DecidableEq, Repr

export TokenTag (RESERVED INT ID)

/-- Modelled from the spec: a token carries a lexical category (tag) and
its literal text (spec section 3). -/
structure Token where
  text : String
  tag : TokenTag
deriving DecidableEq, Repr

/-- A parser maps (token sequence, start position) to `some (value,
nextPosition)` on success and `none` on failure (spec section 3,
`ParseOutcome`). -/
def Parser (α : Type) : Type :=
  List Token → Nat → Option (α × Nat)

/-- Modelled from the spec: the AST node constructors of `imp_ast.py`
(arithmetic side), with the fixed arities given in spec section 6.
Integer literals hold the numeric value produced at parse time. -/
inductive Aexp where
  | IntAexp (i : Int)
  | VarAexp (name : String)
  | BinopAexp (op : String) (left right : Aexp)
deriving DecidableEq, Repr

/-- Modelled from the spec: the AST node constructors of `imp_ast.py`
(boolean side), with the fixed arities given in spec section 6. -/
inductive Bexp where
  | RelopBexp (op : String) (left right : Aexp)
  | NotBexp (exp : Bexp)
  | AndBexp (left right : Bexp)
  | OrBexp (left right : Bexp)
deriving DecidableEq, Repr

/-- Modelled from the spec: the AST node constructors of `imp_ast.py`
(statement side).  The conditional's false branch is optional: the absent
case is the explicit `none` marker, not an empty statement (spec
sections 4.4 and 6). -/
inductive Stmt where
  | AssignStatement (name : String) (exp : Aexp)
  | CompoundStatement (first second : Stmt)
  | IfStatement (condition : Bexp) (true_stmt : Stmt) (false_stmt : Option Stmt)
  | WhileStatement (condition : Bexp) (body : Stmt)
deriving Repr

open Aexp Bexp Stmt

/-! ## The combinator library

Modelled from the spec, section 4.1: `combinators.py` is imported by
`imp_parser.py` but is not among the available sources.  Each combinator
below follows the spec's description of the correspondingly named
operation (`Reserved` = the spec's `Literal`, `Tag` = `TagMatch`,
`Concat` = `Sequence`, `Alternate`, `Process` = `Map`, `Rep` = `Repeat`,
`Opt` = `Optional`, `Lazy`, `Phrase`, `Exp` = `FoldSeparated`). -/

/-- Modelled from the spec: `Literal(text, tag)` succeeds consuming
exactly one token iff its text and tag both equal the given values,
producing the token's text; else fails consuming nothing.  In the source
this combinator is named `Reserved`. -/
def Reserved (value : String) (tag : TokenTag) : Parser String := fun toks pos =>
  match toks[pos]? with
  | some t => if t.text = value ∧ t.tag = tag then some (t.text, pos + 1) else none
  | none => none

/-- Modelled from the spec: `TagMatch(tag)` succeeds consuming exactly
one token iff its tag equals the given tag, producing the token's text as
value; else fails.  In the source this combinator is named `Tag`. -/
def Tag (tag : TokenTag) : Parser String := fun toks pos =>
  match toks[pos]? with
  | some t => if t.tag = tag then some (t.text, pos + 1) else none
  | none => none

/-- Modelled from the spec: `Sequence(p1, p2)` succeeds iff `p1` succeeds
at the start position and `p2` succeeds at `p1`'s resulting position; the
value is the pair of both values.  In the source this is `Concat`, spelled
`+`. -/
def Concat (l : Parser α) (r : Parser β) : Parser (α × β) := fun toks pos =>
  match l toks pos with
  | some (lv, pos1) =>
    match r toks pos1 with
    | some (rv, pos2) => some ((lv, rv), pos2)
    | none => none
  | none => none

/-- Modelled from the spec: `Alternate(p1, p2)` tries `p1`; if it fails,
tries `p2` at the same position (ordered choice, first match wins).  In
the source this is spelled `|`. -/
def Alternate (l r : Parser α) : Parser α := fun toks pos =>
  match l toks pos with
  | some res => some res
  | none => r toks pos

/-- Modelled from the spec: `Map(p, f)` succeeds iff `p` succeeds,
transforming its value through `f`; the position is unchanged by the
transform.  In the source this is `Process`, spelled `^`. -/
def Process (p : Parser α) (f : α → β) : Parser β := fun toks pos =>
  match p toks pos with
  | some (v, pos') => some (f v, pos')
  | none => none

/-- Modelled from the spec: `Optional(p)` always succeeds; it yields
`p`'s value wrapped as present if `p` succeeds, or the explicit absent
marker at the original position if `p` fails.  In the source this is
`Opt`. -/
def Opt (p : Parser α) : Parser (Option α) := fun toks pos =>
  match p toks pos with
  | some (v, pos') => some (some v, pos')
  | none => some (none, pos)

/-- Loop of `Rep`: keep applying `p`, collecting values, until it fails.
The fuel argument only makes the loop total; `Rep` supplies more fuel
than there are tokens, so the loop stops on its own failure case on every
input whose iterations each consume at least one token. -/
def RepAux (p : Parser α) (toks : List Token) : Nat → List α → Nat → List α × Nat
  | 0, acc, pos => (acc, pos)
  | fuel + 1, acc, pos =>
    match p toks pos with
    | some (v, pos') => RepAux p toks fuel (acc ++ [v]) pos'
    | none => (acc, pos)

/-- Modelled from the spec: `Repeat(p)` repeatedly applies `p` from the
current position, collecting the ordered list of values, until `p`
fails; it never itself fails (zero matches give the empty list at the
unchanged position).  In the source this is `Rep`. -/
def Rep (p : Parser α) : Parser (List α) := fun toks pos =>
  some (RepAux p toks (toks.length + 1) [] pos)

/-- Modelled from the spec: `Lazy(supplier)` defers building the
underlying parser until invocation, breaking construction-time recursion
between mutually referring grammar rules.  In the pure embedding the
memoization is unobservable, so `Lazy` simply invokes the supplied
parser. -/
def Lazy (supplier : Unit → Parser α) : Parser α := fun toks pos =>
  supplier () toks pos

/-- Modelled from the spec: `Phrase(p)` succeeds iff `p` succeeds and the
resulting position equals the end of the token sequence; otherwise it
fails, rejecting any valid prefix followed by unconsumed trailing
tokens. -/
def Phrase (p : Parser α) : Parser α := fun toks pos =>
  match p toks pos with
  | some (v, pos') => if pos' = toks.length then some (v, pos') else none
  | none => none

/-- Loop of `Exp`: after the seed item, repeatedly parse a (separator,
item) pair and fold the separator's combining function over
(accumulated, next), left-associatively (spec section 4.2).  The fuel
argument only makes the loop total; `Exp` supplies more fuel than there
are tokens, enough for every separator that consumes at least one
token. -/
def ExpAux (p : Parser α) (separator : Parser (α → α → α)) (toks : List Token) :
    Nat → α → Nat → α × Nat
  | 0, acc, pos => (acc, pos)
  | fuel + 1, acc, pos =>
    match Concat separator p toks pos with
    | some ((f, v), pos') => ExpAux p separator toks fuel (f acc v) pos'
    | none => (acc, pos)

/-- Modelled from the spec: `FoldSeparated(itemParser, sepParser)` parses
one-or-more items separated by the separator, whose value is a binary
combining function, folding strictly left-associatively; with zero
separated pairs the result is the seed item alone.  In the source this is
`Exp`, spelled `*`. -/
def Exp (p : Parser α) (separator : Parser (α → α → α)) : Parser α := fun toks pos =>
  match p toks pos with
  | some (v, pos') => some (ExpAux p separator toks (toks.length + 1) v pos')
  | none => none

/-! ## The grammar layer — `imp_parser.py`, embedded from the source -/

/-- Source `keyword(kw)`: a `Reserved` combinator over the `RESERVED` tag. -/
def keyword (kw : String) : Parser String :=
  Reserved kw RESERVED

/-- Digit accumulation over a character list: the value of a decimal
digit string. -/
def pyIntAux : List Char → Nat → Nat
  | [], acc => acc
  | c :: cs, acc => pyIntAux cs (acc * 10 + (c.toNat - 48))

/-- Modelled from the spec: the conversion performed by Python's `int`
on the decimal digit strings the lexer tags `INT` (integer literals are
converted to their numeric value at parse time, spec section 4.5). -/
def pyInt (s : String) : Int :=
  Int.ofNat (pyIntAux s.data 0)

/-- Source `num`: matches an `INT` token and converts its text to the integer
value. -/
def num : Parser Int :=
  Process (Tag INT) pyInt

/-- Source `id`: matches an `ID` token, producing the variable name. -/
def id : Parser String :=
  Tag ID

/-- Source `any_operator_in_list(ops)`: the ordered alternation of `keyword`
parsers for each operator, folded with `|` by `reduce` (left fold seeded
with the first parser; `reduce` on an empty list is an error in the
source, modelled here as the parser that always fails). -/
def any_operator_in_list : List String → Parser String
  | [] => fun _ _ => none
  | op :: ops => ops.foldl (fun acc o => Alternate acc (keyword o)) (keyword op)

/-- Source `precedence(value_parser, precedence_levels, combine)`: fold the
operator parser of the first level over the value parser with `Exp`
(spelled `*` in the source), then fold each later level's operator
parser over the result in list order.  An empty level list is an index
error in the source, modelled here as the parser that always fails. -/
def precedence (valueP : Parser α) (precedence_levels : List (List String))
    (combine : String → α → α → α) : Parser α :=
  match precedence_levels with
  | [] => fun _ _ => none
  | level0 :: rest =>
    rest.foldl
      (fun acc level => Exp acc (Process (any_operator_in_list level) combine))
      (Exp valueP (Process (any_operator_in_list level0) combine))

/-- Source `process_binop(op)`: the binary-operator combining function for
arithmetic expressions. -/
def process_binop (op : String) : Aexp → Aexp → Aexp :=
  fun l r => BinopAexp op l r

/-- Source `process_relop`: builds a relational node from `((left, op), right)`. -/
def process_relop : (Aexp × String) × Aexp → Bexp :=
  fun p => RelopBexp p.1.2 p.1.1 p.2

/-- Source `process_logic(op)`: returns the and/or combining function; on any
other operator string the source raises `RuntimeError('unknown logic
operator: ...')`, modelled as `none`. -/
def process_logic (op : String) : Option (Bexp → Bexp → Bexp) :=
  if op = "and" then some (fun l r => AndBexp l r)
  else if op = "or" then some (fun l r => OrBexp l r)
  else none

/-- Total wrapper around `process_logic` used to build `bexp`: the
default is only consulted on the `RuntimeError` branch, which the
boolean grammar never reaches because its operator parsers only ever
produce the strings of `bexp_precedence_levels`. -/
def process_logic_fn (op : String) : Bexp → Bexp → Bexp :=
  (process_logic op).getD (fun l r => AndBexp l r)

/-- Source `process_group`: extracts the inner value from `((lparen, value),
rparen)`. -/
def process_group : (α × β) × γ → β :=
  fun p => p.1.2

/-- Source `aexp_precedence_levels`: multiplicative operators before additive
ones. -/
def aexp_precedence_levels : List (List String) :=
  [["*", "/"], ["+", "-"]]

/-- Source `bexp_precedence_levels`: `and` before `or`. -/
def bexp_precedence_levels : List (List String) :=
  [["and"], ["or"]]

/-- Source `aexp_value`: an integer literal mapped to `IntAexp`, or an
identifier mapped to `VarAexp`. -/
def aexp_value : Parser Aexp :=
  Alternate (Process num (fun i => IntAexp i)) (Process id (fun v => VarAexp v))

mutual

/-- Source `aexp()`: the precedence engine over arithmetic terms with
`aexp_precedence_levels` and `process_binop`.  The fuel argument bounds
grammar-rule recursion (the source's `Lazy` sites). -/
def aexp : Nat → Parser Aexp
  | 0 => fun _ _ => none
  | fuel + 1 => precedence (aexp_term fuel) aexp_precedence_levels process_binop

/-- Source `aexp_term()`: a value or a parenthesized group. -/
def aexp_term : Nat → Parser Aexp
  | 0 => fun _ _ => none
  | fuel + 1 => Alternate aexp_value (aexp_group fuel)

/-- Source `aexp_group()`: `'(' aexp ')'`, with the recursive reference behind
`Lazy`. -/
def aexp_group : Nat → Parser Aexp
  | 0 => fun _ _ => none
  | fuel + 1 =>
    Process (Concat (Concat (keyword "(") (Lazy fun _ => aexp fuel)) (keyword ")"))
      process_group

end

/-- The operator list of `bexp_relop` (local to that function in the
source). -/
def relops : List String :=
  ["<", "<=", ">", ">=", "=", "!="]

mutual

/-- Source `bexp()`: the precedence engine over boolean terms with
`bexp_precedence_levels` and `process_logic`. -/
def bexp : Nat → Parser Bexp
  | 0 => fun _ _ => none
  | fuel + 1 => precedence (bexp_term fuel) bexp_precedence_levels process_logic_fn

/-- Source `bexp_term()`: negation, relation, or parenthesized group, tried in
that order. -/
def bexp_term : Nat → Parser Bexp
  | 0 => fun _ _ => none
  | fuel + 1 => Alternate (Alternate (bexp_not fuel) (bexp_relop fuel)) (bexp_group fuel)

/-- Source `bexp_not()`: `'not' bexp_term`, right-recursive behind `Lazy`. -/
def bexp_not : Nat → Parser Bexp
  | 0 => fun _ _ => none
  | fuel + 1 =>
    Process (Concat (keyword "not") (Lazy fun _ => bexp_term fuel))
      (fun parsed => NotBexp parsed.2)

/-- Source `bexp_relop()`: an arithmetic expression, exactly one relational
operator from `relops`, and an arithmetic expression. -/
def bexp_relop : Nat → Parser Bexp
  | 0 => fun _ _ => none
  | fuel + 1 =>
    Process (Concat (Concat (aexp fuel) (any_operator_in_list relops)) (aexp fuel))
      process_relop

/-- Source `bexp_group()`: `'(' bexp ')'`, with the recursive reference behind
`Lazy`. -/
def bexp_group : Nat → Parser Bexp
  | 0 => fun _ _ => none
  | fuel + 1 =>
    Process (Concat (Concat (keyword "(") (Lazy fun _ => bexp fuel)) (keyword ")"))
      process_group

end

mutual

/-- Source `stmt_list()`: one-or-more statements separated by `';'`, the
separator mapped to the `CompoundStatement` combining function, folded
left-associatively by `Exp`. -/
def stmt_list : Nat → Parser Stmt
  | 0 => fun _ _ => none
  | fuel + 1 =>
    Exp (stmt fuel) (Process (keyword ";") (fun _ => fun l r => CompoundStatement l r))

/-- Source `stmt()`: assignment, conditional, or while loop, tried in that
order. -/
def stmt : Nat → Parser Stmt
  | 0 => fun _ _ => none
  | fuel + 1 => Alternate (Alternate (assign_stmt fuel) (if_stmt fuel)) (while_stmt fuel)

/-- Source `assign_stmt()`: `id ':=' aexp` mapped to an `AssignStatement`. -/
def assign_stmt : Nat → Parser Stmt
  | 0 => fun _ _ => none
  | fuel + 1 =>
    Process (Concat (Concat id (keyword ":=")) (aexp fuel))
      (fun parsed => AssignStatement parsed.1.1 parsed.2)

/-- Source `if_stmt()`: `'if' bexp 'then' stmt_list ['else' stmt_list] 'end'`;
the optional else arm is `Opt` of (`'else'` then a statement list), and
an absent arm gives the conditional the explicit `none` false branch. -/
def if_stmt : Nat → Parser Stmt
  | 0 => fun _ _ => none
  | fuel + 1 =>
    Process
      (Concat
        (Concat
          (Concat (Concat (Concat (keyword "if") (bexp fuel)) (keyword "then"))
            (Lazy fun _ => stmt_list fuel))
          (Opt (Concat (keyword "else") (Lazy fun _ => stmt_list fuel))))
        (keyword "end"))
      (fun parsed =>
        IfStatement parsed.1.1.1.1.2 parsed.1.1.2 (parsed.1.2.map (fun fp => fp.2)))

/-- Source `while_stmt()`: `'while' bexp 'do' stmt_list 'end'` mapped to a
`WhileStatement`. -/
def while_stmt : Nat → Parser Stmt
  | 0 => fun _ _ => none
  | fuel + 1 =>
    Process
      (Concat
        (Concat (Concat (Concat (keyword "while") (bexp fuel)) (keyword "do"))
          (Lazy fun _ => stmt_list fuel))
        (keyword "end"))
      (fun parsed => WhileStatement parsed.1.1.1.2 parsed.1.2)

end

/-- Fuel that is ample for every input: descending one grammar level
costs a bounded number of fuel units and, beyond a fixed entry overhead,
every few units of descent consume at least one token. -/
def defaultFuel (toks : List Token) : Nat :=
  4 * toks.length + 16

/-- Source `parser()`: `Phrase` around the statement-list parser, requiring the
whole input to be consumed. -/
def parser (fuel : Nat) : Parser Stmt :=
  Phrase (stmt_list fuel)

/-- Source `imp_parse(tokens)`: the top-level entry point, running the parser
on the tokens from position 0. -/
def imp_parse (toks : List Token) : Option (Stmt × Nat) :=
  parser (defaultFuel toks) toks 0

/-- Shorthand for a reserved-word token. -/
def rtok (s : String) : Token :=
  ⟨s, RESERVED⟩

/-- Shorthand for an integer-literal token. -/
def itok (s : String) : Token :=
  ⟨s, INT⟩

/-- Shorthand for an identifier token. -/
def vtok (s : String) : Token :=
  ⟨s, ID⟩

/-! ## Position monotonicity and no-consumption-on-failure -/

/-- A parser is monotone when every success returns a next position at
least the start position (spec section 3's invariant on
`ParseOutcome`). -/
def Mono (p : Parser α) : Prop :=
  ∀ toks pos v pos', p toks pos = some (v, pos') → pos ≤ pos'

theorem mono_fail : Mono (α := α) (fun _ _ => none) := by
  intro toks pos v pos' h
  cases h

theorem mono_Reserved (value : String) (tag : TokenTag) : Mono (Reserved value tag) := by
  intro toks pos v pos' h
  unfold Reserved at h
  split at h
  · split at h
    · cases h
      exact Nat.le_succ pos
    · cases h
  · cases h

theorem mono_Tag (tag : TokenTag) : Mono (Tag tag) := by
  intro toks pos v pos' h
  unfold Tag at h
  split at h
  · split at h
    · cases h
      exact Nat.le_succ pos
    · cases h
  · cases h

theorem mono_keyword (kw : String) : Mono (keyword kw) :=
  mono_Reserved kw RESERVED

theorem mono_Concat (p : Parser α) (q : Parser β) (hp : Mono p) (hq : Mono q) :
    Mono (Concat p q) := by
  intro toks pos v pos' h
  unfold Concat at h
  split at h
  · rename_i lv pos1 h1
    split at h
    · rename_i rv pos2 h2
      cases h
      exact Nat.le_trans (hp _ _ _ _ h1) (hq _ _ _ _ h2)
    · cases h
  · cases h

theorem mono_Alternate (p q : Parser α) (hp : Mono p) (hq : Mono q) :
    Mono (Alternate p q) := by
  intro toks pos v pos' h
  unfold Alternate at h
  split at h
  · rename_i res h1
    cases h
    exact hp _ _ _ _ h1
  · exact hq _ _ _ _ h

theorem mono_Process (p : Parser α) (f : α → β) (hp : Mono p) : Mono (Process p f) := by
  intro toks pos v pos' h
  unfold Process at h
  split at h
  · rename_i w pos1 h1
    cases h
    exact hp _ _ _ _ h1
  · cases h

theorem mono_Opt (p : Parser α) (hp : Mono p) : Mono (Opt p) := by
  intro toks pos v pos' h
  unfold Opt at h
  split at h
  · rename_i w pos1 h1
    cases h
    exact hp _ _ _ _ h1
  · cases h
    exact Nat.le_refl pos

/-- When the inner parser fails, `Opt` matches zero tokens: it succeeds
with the absent marker at the unchanged position. -/
theorem opt_none (p : Parser α) (toks : List Token) (pos : Nat) (h : p toks pos = none) :
    Opt p toks pos = some (none, pos) := by
  unfold Opt
  rw [h]

theorem mono_Lazy (f : Unit → Parser α) (hf : Mono (f ())) : Mono (Lazy f) := by
  intro toks pos v pos' h
  exact hf _ _ _ _ h

theorem mono_Phrase (p : Parser α) (hp : Mono p) : Mono (Phrase p) := by
  intro toks pos v pos' h
  unfold Phrase at h
  split at h
  · rename_i w pos1 h1
    split at h
    · cases h
      exact hp _ _ _ _ h1
    · cases h
  · cases h

theorem mono_ExpAux (p : Parser α) (separator : Parser (α → α → α)) (toks : List Token)
    (hp : Mono p) (hsep : Mono separator) :
    ∀ fuel acc pos, pos ≤ (ExpAux p separator toks fuel acc pos).2 := by
  intro fuel
  induction fuel with
  | zero =>
    intro acc pos
    exact Nat.le_refl pos
  | succ n ih =>
    intro acc pos
    unfold ExpAux
    split
    · rename_i f v pos' hc
      exact Nat.le_trans (mono_Concat separator p hsep hp toks pos (f, v) pos' hc)
        (ih (f acc v) pos')
    · exact Nat.le_refl pos

theorem mono_Exp (p : Parser α) (separator : Parser (α → α → α))
    (hp : Mono p) (hsep : Mono separator) : Mono (Exp p separator) := by
  intro toks pos v pos' h
  unfold Exp at h
  split at h
  · rename_i w pos1 h1
    injection h with h2
    have hm := mono_ExpAux p separator toks hp hsep (toks.length + 1) w pos1
    rw [h2] at hm
    exact Nat.le_trans (hp _ _ _ _ h1) hm
  · cases h

theorem mono_RepAux (p : Parser α) (toks : List Token) (hp : Mono p) :
    ∀ fuel acc pos, pos ≤ (RepAux p toks fuel acc pos).2 := by
  intro fuel
  induction fuel with
  | zero =>
    intro acc pos
    exact Nat.le_refl pos
  | succ n ih =>
    intro acc pos
    unfold RepAux
    split
    · rename_i v pos' hc
      exact Nat.le_trans (hp _ _ _ _ hc) (ih (acc ++ [v]) pos')
    · exact Nat.le_refl pos

theorem mono_Rep (p : Parser α) (hp : Mono p) : Mono (Rep p) := by
  intro toks pos v pos' h
  unfold Rep at h
  injection h with h2
  have hm := mono_RepAux p toks hp (toks.length + 1) [] pos
  rw [h2] at hm
  exact hm

/-- On failure of the first branch, `Alternate` runs the second branch
at exactly the same position. -/
theorem alternate_retry (p q : Parser α) (toks : List Token) (pos : Nat)
    (h : p toks pos = none) : Alternate p q toks pos = q toks pos := by
  unfold Alternate
  rw [h]

theorem mono_num : Mono num :=
  mono_Process _ _ (mono_Tag INT)

theorem mono_id : Mono id :=
  mono_Tag ID

theorem mono_aexp_value : Mono aexp_value :=
  mono_Alternate _ _ (mono_Process _ _ mono_num) (mono_Process _ _ mono_id)

theorem mono_alternate_foldl (ops : List String) (init : Parser String) (h : Mono init) :
    Mono (ops.foldl (fun acc o => Alternate acc (keyword o)) init) := by
  induction ops generalizing init with
  | nil => exact h
  | cons o os ih => exact ih (Alternate init (keyword o)) (mono_Alternate _ _ h (mono_keyword o))

theorem mono_any_operator_in_list (ops : List String) : Mono (any_operator_in_list ops) := by
  cases ops with
  | nil => exact mono_fail
  | cons op rest => exact mono_alternate_foldl rest (keyword op) (mono_keyword op)

theorem mono_exp_foldl (combine : String → α → α → α) (levels : List (List String))
    (init : Parser α) (h : Mono init) :
    Mono (levels.foldl
      (fun acc level => Exp acc (Process (any_operator_in_list level) combine)) init) := by
  induction levels generalizing init with
  | nil => exact h
  | cons l ls ih =>
    exact ih _ (mono_Exp _ _ h (mono_Process _ _ (mono_any_operator_in_list l)))

theorem mono_precedence (valueP : Parser α) (levels : List (List String))
    (combine : String → α → α → α) (h : Mono valueP) :
    Mono (precedence valueP levels combine) := by
  cases levels with
  | nil => exact mono_fail
  | cons l0 rest =>
    exact mono_exp_foldl combine rest _
      (mono_Exp _ _ h (mono_Process _ _ (mono_any_operator_in_list l0)))

theorem mono_aexp_family (fuel : Nat) :
    Mono (aexp fuel) ∧ Mono (aexp_term fuel) ∧ Mono (aexp_group fuel) := by
  induction fuel with
  | zero => exact ⟨mono_fail, mono_fail, mono_fail⟩
  | succ n ih =>
    obtain ⟨ha, ht, hg⟩ := ih
    refine ⟨?_, ?_, ?_⟩
    · simp only [aexp]
      exact mono_precedence _ _ _ ht
    · simp only [aexp_term]
      exact mono_Alternate _ _ mono_aexp_value hg
    · simp only [aexp_group]
      exact mono_Process _ _
        (mono_Concat _ _ (mono_Concat _ _ (mono_keyword "(") (mono_Lazy _ ha))
          (mono_keyword ")"))

theorem mono_bexp_family (fuel : Nat) :
    Mono (bexp fuel) ∧ Mono (bexp_term fuel) ∧ Mono (bexp_not fuel) ∧
      Mono (bexp_relop fuel) ∧ Mono (bexp_group fuel) := by
  induction fuel with
  | zero => exact ⟨mono_fail, mono_fail, mono_fail, mono_fail, mono_fail⟩
  | succ n ih =>
    obtain ⟨hb, ht, hn, hr, hg⟩ := ih
    have hrel : Mono (bexp_relop (n + 1)) := by
      simp only [bexp_relop]
      exact mono_Process _ _
        (mono_Concat _ _
          (mono_Concat _ _ (mono_aexp_family n).1 (mono_any_operator_in_list relops))
          (mono_aexp_family n).1)
    have hnot : Mono (bexp_not (n + 1)) := by
      simp only [bexp_not]
      exact mono_Process _ _ (mono_Concat _ _ (mono_keyword "not") (mono_Lazy _ ht))
    have hgrp : Mono (bexp_group (n + 1)) := by
      simp only [bexp_group]
      exact mono_Process _ _
        (mono_Concat _ _ (mono_Concat _ _ (mono_keyword "(") (mono_Lazy _ hb))
          (mono_keyword ")"))
    have hterm : Mono (bexp_term (n + 1)) := by
      simp only [bexp_term]
      exact mono_Alternate _ _ (mono_Alternate _ _ hn hr) hg
    refine ⟨?_, hterm, hnot, hrel, hgrp⟩
    simp only [bexp]
    exact mono_precedence _ _ _ ht

theorem mono_stmt_family (fuel : Nat) :
    Mono (stmt_list fuel) ∧ Mono (stmt fuel) ∧ Mono (assign_stmt fuel) ∧
      Mono (if_stmt fuel) ∧ Mono (while_stmt fuel) := by
  induction fuel with
  | zero => exact ⟨mono_fail, mono_fail, mono_fail, mono_fail, mono_fail⟩
  | succ n ih =>
    obtain ⟨hsl, hs, hasn, hif, hwh⟩ := ih
    have hassign : Mono (assign_stmt (n + 1)) := by
      simp only [assign_stmt]
      exact mono_Process _ _
        (mono_Concat _ _ (mono_Concat _ _ mono_id (mono_keyword ":=")) (mono_aexp_family n).1)
    have hifs : Mono (if_stmt (n + 1)) := by
      simp only [if_stmt]
      exact mono_Process _ _
        (mono_Concat _ _
          (mono_Concat _ _
            (mono_Concat _ _
              (mono_Concat _ _ (mono_Concat _ _ (mono_keyword "if") (mono_bexp_family n).1)
                (mono_keyword "then"))
              (mono_Lazy _ hsl))
            (mono_Opt _ (mono_Concat _ _ (mono_keyword "else") (mono_Lazy _ hsl))))
          (mono_keyword "end"))
    have hwhile : Mono (while_stmt (n + 1)) := by
      simp only [while_stmt]
      exact mono_Process _ _
        (mono_Concat _ _
          (mono_Concat _ _
            (mono_Concat _ _ (mono_Concat _ _ (mono_keyword "while") (mono_bexp_family n).1)
              (mono_keyword "do"))
            (mono_Lazy _ hsl))
          (mono_keyword "end"))
    have hstmt : Mono (stmt (n + 1)) := by
      simp only [stmt]
      exact mono_Alternate _ _ (mono_Alternate _ _ hasn hif) hwh
    refine ⟨?_, hstmt, hassign, hifs, hwhile⟩
    simp only [stmt_list]
    exact mono_Exp _ _ hs (mono_Process _ _ (mono_keyword ";"))

/-- Characterization of `Phrase`: it succeeds with a result exactly when
the inner parser succeeds with that result and the resulting position is
the end of the token sequence. -/
theorem phrase_iff (p : Parser α) (toks : List Token) (pos : Nat) (v : α) (pos' : Nat) :
    Phrase p toks pos = some (v, pos') ↔
      p toks pos = some (v, pos') ∧ pos' = toks.length := by
  unfold Phrase
  cases h1 : p toks pos with
  | none => simp
  | some r =>
    obtain ⟨w, pos1⟩ := r
    by_cases hc : pos1 = toks.length
    · subst hc
      show (if toks.length = toks.length then some (w, toks.length) else none) = some (v, pos') ↔ _
      rw [if_pos rfl]
      constructor
      · intro h
        refine ⟨h, ?_⟩
        injection h with h2
        exact (congrArg Prod.snd h2).symm
      · intro h
        exact h.1
    · show (if pos1 = toks.length then some (w, pos1) else none) = some (v, pos') ↔ _
      rw [if_neg hc]
      constructor
      · intro h
        cases h
      · intro h
        obtain ⟨heq, hlen⟩ := h
        injection heq with h2
        exact absurd ((congrArg Prod.snd h2).trans hlen) hc

/-! ## Values produced by operator parsers -/

/-- Every success value of the parser satisfies `P`. -/
def ValuesIn (p : Parser String) (P : String → Prop) : Prop :=
  ∀ toks pos v pos', p toks pos = some (v, pos') → P v

theorem valuesIn_keyword (kw : String) : ValuesIn (keyword kw) (fun v => v = kw) := by
  intro toks pos v pos' h
  unfold keyword Reserved at h
  split at h
  · split at h
    · rename_i hc
      cases h
      exact hc.1
    · cases h
  · cases h

theorem valuesIn_Alternate (p q : Parser String) (P : String → Prop)
    (hp : ValuesIn p P) (hq : ValuesIn q P) : ValuesIn (Alternate p q) P := by
  intro toks pos v pos' h
  unfold Alternate at h
  split at h
  · rename_i res h1
    cases h
    exact hp _ _ _ _ h1
  · exact hq _ _ _ _ h

theorem valuesIn_foldl (ops : List String) (P : String → Prop) (init : Parser String)
    (h : ValuesIn init P) (hops : ∀ o ∈ ops, P o) :
    ValuesIn (ops.foldl (fun acc o => Alternate acc (keyword o)) init) P := by
  induction ops generalizing init with
  | nil => exact h
  | cons o os ih =>
    refine ih _ ?_ (fun o' ho' => hops o' (List.mem_cons_of_mem _ ho'))
    refine valuesIn_Alternate _ _ _ h ?_
    intro toks pos v pos' hkw
    have hv := valuesIn_keyword o toks pos v pos' hkw
    rw [hv]
    exact hops o (List.mem_cons_self _ _)

/-- The value matched by `any_operator_in_list ops` is always a member of
`ops`: these are exactly the operator strings the precedence engine hands
to its `combine` function. -/
theorem valuesIn_any_operator_in_list (ops : List String) :
    ValuesIn (any_operator_in_list ops) (fun v => v ∈ ops) := by
  cases ops with
  | nil =>
    intro toks pos v pos' h
    cases h
  | cons op rest =>
    refine valuesIn_foldl rest _ (keyword op) ?_ ?_
    · intro toks pos v pos' h
      have hv := valuesIn_keyword op toks pos v pos' h
      rw [hv]
      exact List.mem_cons_self _ _
    · exact fun o ho => List.mem_cons_of_mem _ ho

/-! ## Concrete token sequences used by the claims -/

/-- Tokens of `2*3+4`. -/
def toks_mul_add : List Token :=
  [itok "2", rtok "*", itok "3", rtok "+", itok "4"]

/-- Tokens of `2+3*4`. -/
def toks_add_mul : List Token :=
  [itok "2", rtok "+", itok "3", rtok "*", itok "4"]

/-- Tokens of `x:=1;y:=2;z:=3`. -/
def toks_seq3 : List Token :=
  [vtok "x", rtok ":=", itok "1", rtok ";", vtok "y", rtok ":=", itok "2", rtok ";",
   vtok "z", rtok ":=", itok "3"]

/-- Tokens of `1<2 and 2<3 or 3<4`. -/
def toks_andor : List Token :=
  [itok "1", rtok "<", itok "2", rtok "and", itok "2", rtok "<", itok "3", rtok "or",
   itok "3", rtok "<", itok "4"]

/-- Tokens of `if 1<2 then x:=1 end`. -/
def toks_ifnoelse : List Token :=
  [rtok "if", itok "1", rtok "<", itok "2", rtok "then", vtok "x", rtok ":=", itok "1",
   rtok "end"]

/-- Tokens of `a < b < c`. -/
def toks_chain : List Token :=
  [vtok "a", rtok "<", vtok "b", rtok "<", vtok "c"]

/-- Tokens of `x:=1 end`: a valid statement followed by a stray keyword
the grammar cannot consume. -/
def toks_stray : List Token :=
  [vtok "x", rtok ":=", itok "1", rtok "end"]

/-! ## The claims -/

/-- C1: with the precedence levels `[[*, /], [+, -]]` of
`aexp_precedence_levels`, levels listed earlier bind tighter than levels
listed later: the tokens of `2*3+4` parse with `aexp` to
binop(+, binop(*, 2, 3), 4), and the tokens of `2+3*4` parse to
binop(+, 2, binop(*, 3, 4)). -/
theorem claim_C1_aexp_precedence :
    aexp_precedence_levels = [["*", "/"], ["+", "-"]] ∧
    aexp (defaultFuel toks_mul_add) toks_mul_add 0 =
      some (BinopAexp "+" (BinopAexp "*" (IntAexp 2) (IntAexp 3)) (IntAexp 4), 5) ∧
    aexp (defaultFuel toks_add_mul) toks_add_mul 0 =
      some (BinopAexp "+" (IntAexp 2) (BinopAexp "*" (IntAexp 3) (IntAexp 4)), 5) :=
  ⟨rfl, by decide, by decide⟩

/-- C2: `Phrase` succeeds exactly when its inner parser succeeds with a
resulting position equal to the end of the token sequence; and a valid
statement list followed by a stray trailing keyword makes the top-level
parse (Phrase around the statement-list parser at position 0) fail even
though a strict prefix matched successfully. -/
theorem claim_C2_full_consumption :
    (∀ (α : Type) (p : Parser α) (toks : List Token) (pos : Nat) (v : α) (pos' : Nat),
        Phrase p toks pos = some (v, pos') ↔
          p toks pos = some (v, pos') ∧ pos' = toks.length) ∧
    stmt_list (defaultFuel toks_stray) toks_stray 0 =
      some (AssignStatement "x" (IntAexp 1), 3) ∧
    toks_stray.length = 4 ∧
    imp_parse toks_stray = none :=
  ⟨fun _ p toks pos v pos' => phrase_iff p toks pos v pos', rfl, rfl, rfl⟩

/-- Witness for C2: the characterization applied at a concrete parser,
token sequence and result, with both hypotheses discharged by
computation. -/
theorem claim_C2_full_consumption_witness :
    Phrase (keyword ";") [rtok ";"] 0 = some (";", 1) :=
  (claim_C2_full_consumption.1 String (keyword ";") [rtok ";"] 0 ";" 1).mpr
    ⟨by decide, by decide⟩

/-- C3: statement sequencing is strictly left-associative: the tokens of
`x:=1;y:=2;z:=3` parse to compound(compound(assign(x,1), assign(y,2)),
assign(z,3)) and not to the right-nested alternative. -/
theorem claim_C3_left_assoc_sequencing :
    imp_parse toks_seq3 =
      some (CompoundStatement
        (CompoundStatement (AssignStatement "x" (IntAexp 1)) (AssignStatement "y" (IntAexp 2)))
        (AssignStatement "z" (IntAexp 3)), 11) ∧
    imp_parse toks_seq3 ≠
      some (CompoundStatement (AssignStatement "x" (IntAexp 1))
        (CompoundStatement (AssignStatement "y" (IntAexp 2)) (AssignStatement "z" (IntAexp 3))),
        11) := by
  refine ⟨rfl, ?_⟩
  intro h
  have h1 : imp_parse toks_seq3 =
      some (CompoundStatement
        (CompoundStatement (AssignStatement "x" (IntAexp 1)) (AssignStatement "y" (IntAexp 2)))
        (AssignStatement "z" (IntAexp 3)), 11) := rfl
  rw [h1] at h
  simp at h

/-- C4: for every parser built from the combinator library, success
returns a next position at least the given position (with equality on a
zero-token match, as in a failed `Opt`); the grammar's parsers inherit
the invariant; and on failure nothing is consumed: `Alternate`'s second
branch retries at exactly the position at which the first branch
failed. -/
theorem claim_C4_parser_invariants :
    (∀ value tag, Mono (Reserved value tag)) ∧
    (∀ tag, Mono (Tag tag)) ∧
    (∀ (α β : Type) (p : Parser α) (q : Parser β), Mono p → Mono q → Mono (Concat p q)) ∧
    (∀ (α : Type) (p q : Parser α), Mono p → Mono q → Mono (Alternate p q)) ∧
    (∀ (α β : Type) (p : Parser α) (f : α → β), Mono p → Mono (Process p f)) ∧
    (∀ (α : Type) (p : Parser α), Mono p → Mono (Opt p)) ∧
    (∀ (α : Type) (p : Parser α) (toks : List Token) (pos : Nat),
        p toks pos = none → Opt p toks pos = some (none, pos)) ∧
    (∀ (α : Type) (p : Parser α), Mono p → Mono (Rep p)) ∧
    (∀ (α : Type) (p : Parser α) (separator : Parser (α → α → α)),
        Mono p → Mono separator → Mono (Exp p separator)) ∧
    (∀ (α : Type) (f : Unit → Parser α), Mono (f ()) → Mono (Lazy f)) ∧
    (∀ (α : Type) (p : Parser α), Mono p → Mono (Phrase p)) ∧
    (∀ fuel, Mono (stmt_list fuel) ∧ Mono (aexp fuel) ∧ Mono (bexp fuel)) ∧
    (∀ (α : Type) (p q : Parser α) (toks : List Token) (pos : Nat),
        p toks pos = none → Alternate p q toks pos = q toks pos) :=
  ⟨fun value tag => mono_Reserved value tag,
   fun tag => mono_Tag tag,
   fun _ _ p q hp hq => mono_Concat p q hp hq,
   fun _ p q hp hq => mono_Alternate p q hp hq,
   fun _ _ p f hp => mono_Process p f hp,
   fun _ p hp => mono_Opt p hp,
   fun _ p toks pos h => opt_none p toks pos h,
   fun _ p hp => mono_Rep p hp,
   fun _ p separator hp hsep => mono_Exp p separator hp hsep,
   fun _ f hf => mono_Lazy f hf,
   fun _ p hp => mono_Phrase p hp,
   fun fuel => ⟨(mono_stmt_family fuel).1, (mono_aexp_family fuel).1, (mono_bexp_family fuel).1⟩,
   fun _ p q toks pos h => alternate_retry p q toks pos h⟩

/-- Witness for C4: the monotonicity of a primitive applied at a concrete
success, and the failure-retry property of `Alternate` applied at a
concrete failing first branch. -/
theorem claim_C4_parser_invariants_witness :
    0 ≤ 1 ∧
    Alternate (keyword "if") (keyword "then") [rtok "then"] 0 =
      keyword "then" [rtok "then"] 0 :=
  ⟨claim_C4_parser_invariants.1 "if" RESERVED [rtok "if"] 0 "if" 1 (by decide),
   claim_C4_parser_invariants.2.2.2.2.2.2.2.2.2.2.2.2 String (keyword "if") (keyword "then")
     [rtok "then"] 0 (by decide)⟩

/-- C5: with the precedence levels `[[and], [or]]` of
`bexp_precedence_levels`, `and` binds tighter than `or`: the tokens of
`1<2 and 2<3 or 3<4` parse with `bexp` to
or(and(relop(<,1,2), relop(<,2,3)), relop(<,3,4)). -/
theorem claim_C5_bexp_precedence :
    bexp_precedence_levels = [["and"], ["or"]] ∧
    bexp (defaultFuel toks_andor) toks_andor 0 =
      some (OrBexp
        (AndBexp (RelopBexp "<" (IntAexp 1) (IntAexp 2)) (RelopBexp "<" (IntAexp 2) (IntAexp 3)))
        (RelopBexp "<" (IntAexp 3) (IntAexp 4)), 11) :=
  ⟨rfl, by decide⟩

/-- C6: a conditional without an `else` clause parses to a conditional
node whose false branch is the explicit absent marker `none`, not an
empty statement of any kind: the tokens of `if 1<2 then x:=1 end` yield
exactly this node. -/
theorem claim_C6_optional_else_absent :
    imp_parse toks_ifnoelse =
      some (IfStatement (RelopBexp "<" (IntAexp 1) (IntAexp 2))
        (AssignStatement "x" (IntAexp 1)) none, 9) :=
  rfl

/-- C7: for every token sequence, the top-level entry point either fails
with the bare failure marker (no diagnostic payload) or succeeds with
just the root statement node — the accompanying position carries no
information, being forced to the end of the input. -/
theorem claim_C7_entry_shape (toks : List Token) :
    imp_parse toks = none ∨ ∃ s : Stmt, imp_parse toks = some (s, toks.length) := by
  cases h : imp_parse toks with
  | none => exact Or.inl rfl
  | some r =>
    obtain ⟨s, pos'⟩ := r
    refine Or.inr ⟨s, ?_⟩
    have h2 := (phrase_iff (stmt_list (defaultFuel toks)) toks 0 s pos').mp h
    rw [h2.2]

/-- C8: a relational boolean term matches exactly one comparison operator
from `relops` between two arithmetic expressions, so comparisons do not
chain: on the tokens of `a < b < c` the relation parser consumes only
`a < b` (stopping at position 3 of 5), and the input fails to parse as a
single full-input relation (and as a full-input boolean expression). -/
theorem claim_C8_no_chained_comparisons :
    relops = ["<", "<=", ">", ">=", "=", "!="] ∧
    bexp_relop (defaultFuel toks_chain) toks_chain 0 =
      some (RelopBexp "<" (VarAexp "a") (VarAexp "b"), 3) ∧
    toks_chain.length = 5 ∧
    Phrase (bexp_relop (defaultFuel toks_chain)) toks_chain 0 = none ∧
    Phrase (bexp (defaultFuel toks_chain)) toks_chain 0 = none :=
  ⟨rfl, by decide, rfl, by decide, by decide⟩

/-- C9: parsing is deterministic: the entry point is a pure function of
the token sequence, a freshly constructed grammar object (a new `parser`
application) produces the identical result, and two invocations agree
structurally. -/
theorem claim_C9_deterministic (toks : List Token) :
    parser (defaultFuel toks) toks 0 = imp_parse toks ∧
    imp_parse toks = imp_parse toks :=
  ⟨rfl, rfl⟩

/-- C10: the RuntimeError branch of `process_logic` is unreachable in the
boolean grammar: every operator string produced by the operator parser of
a level of `bexp_precedence_levels` — exactly the strings the precedence
engine passes to `process_logic` when building `bexp` — is `and` or
`or`, on which `process_logic` returns a combining function rather than
signalling the unknown-operator error. -/
theorem claim_C10_logic_error_unreachable :
    ∀ level ∈ bexp_precedence_levels,
      ∀ (toks : List Token) (pos : Nat) (v : String) (pos' : Nat),
        any_operator_in_list level toks pos = some (v, pos') →
          (process_logic v).isSome = true ∧ (v = "and" ∨ v = "or") := by
  intro level hlevel toks pos v pos' h
  have hv := valuesIn_any_operator_in_list level toks pos v pos' h
  have hcase : level = ["and"] ∨ level = ["or"] := by
    simpa [bexp_precedence_levels] using hlevel
  rcases hcase with h1 | h1
  · subst h1
    have hva : v = "and" := by simpa using hv
    subst hva
    exact ⟨rfl, Or.inl rfl⟩
  · subst h1
    have hvo : v = "or" := by simpa using hv
    subst hvo
    exact ⟨rfl, Or.inr rfl⟩

/-- Witness for C10: the theorem applied to the first precedence level
and a concrete token sequence matching `and`. -/
theorem claim_C10_logic_error_unreachable_witness :
    (process_logic "and").isSome = true ∧ ("and" = "and" ∨ "and" = "or") :=
  claim_C10_logic_error_unreachable ["and"] (by decide) [rtok "and"] 0 "and" 1 (by decide)

end Imp
